import Mathlib

/-!
Verification development for the Mellea plugin/hook subsystem
(`mellea/plugins/`): a shallow embedding of the hook dispatch and
payload-stamping engine, the handler registry adapters, the PluginSet
group container, and the session-scope manager, together with theorems
checking the natural-language specification against the embedded code.

The embedding follows the Python source file by file:
  - `mellea/plugins/types.py`      : `PluginMode`, `HookType`
  - `mellea/plugins/decorators.py` : `HookMeta`, `PluginMeta`, scope guards
  - `mellea/plugins/base.py`       : `MelleaBasePayload`, `PluginViolationError`
  - `mellea/plugins/registry.py`   : `_MODE_MAP`, adapter configs, discovery
  - `mellea/plugins/pluginset.py`  : `PluginSet.flatten`, context manager
  - `mellea/plugins/manager.py`    : module state, `invoke_hook`,
                                     `deregister_session_plugins`

The sequential invocation loop itself lives in the external ContextForge
framework (`mcpgateway.plugins.framework.manager.PluginManager`), which is
not part of this repository; where a claim depends on it, it is modelled
from the specification and marked as such in its doc comment.
-/

namespace Mellea

/-- Execution modes for Mellea plugins (`types.py`, `PluginMode`). -/
inductive PluginMode where
  | enforce
  | permissive
  | fire_and_forget
  deriving DecidableEq, Repr

/-- ContextForge-level plugin execution mode, the target of `_MODE_MAP`
(`registry.py`).  Only the two modes the map produces are relevant. -/
inductive CFPluginMode where
  | enforce
  | permissive
  deriving DecidableEq, Repr

/-- All Mellea hook types (`types.py`, `HookType`). -/
inductive HookType where
  | session_pre_init
  | session_post_init
  | session_reset
  | session_cleanup
  | component_pre_create
  | component_post_create
  | component_pre_execute
  | component_post_success
  | component_post_error
  | generation_pre_call
  | generation_post_call
  | generation_stream_chunk
  | validation_pre_check
  | validation_post_check
  | sampling_loop_start
  | sampling_iteration
  | sampling_repair
  | sampling_loop_end
  | tool_pre_invoke
  | tool_post_invoke
  | adapter_pre_load
  | adapter_post_load
  | adapter_pre_unload
  | adapter_post_unload
  | context_update
  | context_prune
  | error_occurred
  deriving DecidableEq, Repr

/-- The string value of each hook type (`types.py`, the enum values). -/
def HookType.value : HookType → String
  | .session_pre_init => "session_pre_init"
  | .session_post_init => "session_post_init"
  | .session_reset => "session_reset"
  | .session_cleanup => "session_cleanup"
  | .component_pre_create => "component_pre_create"
  | .component_post_create => "component_post_create"
  | .component_pre_execute => "component_pre_execute"
  | .component_post_success => "component_post_success"
  | .component_post_error => "component_post_error"
  | .generation_pre_call => "generation_pre_call"
  | .generation_post_call => "generation_post_call"
  | .generation_stream_chunk => "generation_stream_chunk"
  | .validation_pre_check => "validation_pre_check"
  | .validation_post_check => "validation_post_check"
  | .sampling_loop_start => "sampling_loop_start"
  | .sampling_iteration => "sampling_iteration"
  | .sampling_repair => "sampling_repair"
  | .sampling_loop_end => "sampling_loop_end"
  | .tool_pre_invoke => "tool_pre_invoke"
  | .tool_post_invoke => "tool_post_invoke"
  | .adapter_pre_load => "adapter_pre_load"
  | .adapter_post_load => "adapter_post_load"
  | .adapter_pre_unload => "adapter_pre_unload"
  | .adapter_post_unload => "adapter_post_unload"
  | .context_update => "context_update"
  | .context_prune => "context_prune"
  | .error_occurred => "error_occurred"

/-- Metadata attached by the `@hook` decorator (`decorators.py`, `HookMeta`). -/
structure HookMeta where
  hook_type : String
  mode : PluginMode := .enforce
  priority : Int := 50
  deriving DecidableEq, Repr

/-- Metadata attached by the `@plugin` decorator (`decorators.py`, `PluginMeta`). -/
structure PluginMeta where
  name : String
  priority : Int := 50
  deriving DecidableEq, Repr

/-- The `_MODE_MAP` dictionary of `registry.py`, as a function: Mellea mode
to ContextForge mode.  `fire_and_forget` is deferred and stored as
`enforce` (see the source comment).  `_map_mode` falls back to the map
entry for `ENFORCE` on a missing key; the map is total, so the fallback
never fires and the function below is exactly `_map_mode`. -/
def mapMode : PluginMode → CFPluginMode
  | .enforce => .enforce
  | .permissive => .permissive
  | .fire_and_forget => .enforce

/-- The frozen base payload (`base.py`, `MelleaBasePayload`).  The
`timestamp` is abstracted to a `Nat`; the point-specific attributes of the
payload subclasses (e.g. `model_id` of `SessionPreInitPayload`) are
abstracted into the association list `extra`, since the base-field
behaviour is what the dispatcher manipulates. -/
structure MelleaBasePayload where
  session_id : Option String := none
  request_id : String := ""
  timestamp : Nat := 0
  hook : String := ""
  user_metadata : List (String × String) := []
  extra : List (String × String) := []
  deriving DecidableEq, Repr

/-- The dispatch-time stamping step of `manager.py` `invoke_hook`
(lines 159-165): `model_copy` with `hook` always set to the hook value,
`session_id` set only when a session id argument was supplied, and
`request_id` set only when the incoming payload's `request_id` is empty
(Python falsiness of the empty string). -/
def stampForDispatch (p : MelleaBasePayload) (hookValue : String)
    (session_id : Option String) (request_id : String) : MelleaBasePayload :=
  { p with
    hook := hookValue
    session_id := match session_id with
      | some s => some s
      | none => p.session_id
    request_id := if p.request_id = "" then request_id else p.request_id }

/-- A structured block outcome (ContextForge `PluginViolation`, the shape
the spec calls a Violation and `block()` in `registry.py` constructs). -/
structure PluginViolation where
  reason : String
  description : String := ""
  code : String := ""
  plugin_name : String := ""
  deriving DecidableEq, Repr

/-- A handler result (ContextForge `PluginResult`): continue flag, optional
proposed payload, optional violation. -/
structure PluginResult where
  continue_processing : Bool := true
  modified_payload : Option MelleaBasePayload := none
  violation : Option PluginViolation := none
  deriving DecidableEq, Repr

/-- The `block()` helper of `registry.py`: a blocking `PluginResult` whose
violation carries the reason, code, description (defaulting to the reason)
and details. -/
def block (reason : String) (code : String := "") (description : String := "") :
    PluginResult :=
  { continue_processing := false
    violation := some
      { reason := reason
        description := if description = "" then reason else description
        code := code } }

/-- The exception raised when a plugin blocks in enforce mode
(`base.py`, `PluginViolationError`).  The `message` field is the string
form built by `__init__`. -/
structure PluginViolationError where
  hook_type : String
  reason : String
  code : String := ""
  plugin_name : String := ""
  message : String := ""
  deriving DecidableEq, Repr

/-- The `PluginViolationError.__init__` constructor of `base.py`: stores the
four attributes and builds the message
`Plugin blocked {hook_type}: [{code}] {reason}` (the bracketed code is
omitted when `code` is empty). -/
def mkPluginViolationError (hook_type reason : String) (code : String := "")
    (plugin_name : String := "") : PluginViolationError :=
  let detail := if code = "" then "" else "[" ++ code ++ "] "
  { hook_type := hook_type
    reason := reason
    code := code
    plugin_name := plugin_name
    message := "Plugin blocked " ++ hook_type ++ ": " ++ detail ++ reason }

/-- A registered handler record as the dispatch engine sees it after the
registry adapters have normalised it: name, subscribed extension point,
ContextForge-level execution mode, priority, and the wrapped callable.
The callable returns `none` for the Python `None` result ("continue,
unchanged"). -/
structure Handler where
  name : String
  hook : String
  mode : CFPluginMode
  priority : Int
  run : MelleaBasePayload → Option PluginResult

/-- Stable sort of handlers by ascending priority (spec step 3:
"sort stably by ascending priority"), as insertion sort. -/
def sortByPriority (hs : List Handler) : List Handler :=
  hs.insertionSort (fun a b => a.priority ≤ b.priority)

/-- The outcome of one dispatch: the aggregate result, the final payload,
and an execution trace recording, for each handler invoked, its name and
the payload it was handed. -/
structure DispatchOutcome where
  result : PluginResult
  finalPayload : MelleaBasePayload
  trace : List (String × MelleaBasePayload)
  deriving Repr

/-- Modelled from the spec: the sequential invocation loop of the external
ContextForge `PluginManager` (not part of this repository), following
section 4.4 steps 4-5 of the specification.  For each handler in order:
a `none` result or a continuing result without payload is a no-op; a
continuing result with a proposed payload goes through the policy filter
`filterFn` (the per-extension-point writable-field whitelist, abstracted
as a parameter); a blocking result records the violation stamped with the
blocking handler's name and then branches on the handler's mode —
enforcing stops the chain with the block as final outcome, permissive logs
and proceeds with no mutation taken.  If no enforcing handler blocked, the
aggregate outcome continues with the final payload. -/
def dispatchLoop (filterFn : String → MelleaBasePayload → MelleaBasePayload → MelleaBasePayload)
    (ht : String) :
    List Handler → MelleaBasePayload → List (String × MelleaBasePayload) → DispatchOutcome
  | [], p, tr =>
      { result := { continue_processing := true, modified_payload := some p }
        finalPayload := p
        trace := tr.reverse }
  | h :: rest, p, tr =>
      match h.run p with
      | none => dispatchLoop filterFn ht rest p ((h.name, p) :: tr)
      | some r =>
          if r.continue_processing then
            let pNext := match r.modified_payload with
              | some q => filterFn ht p q
              | none => p
            dispatchLoop filterFn ht rest pNext ((h.name, p) :: tr)
          else
            let v := r.violation.map (fun v => { v with plugin_name := h.name })
            match h.mode with
            | .enforce =>
                { result := { continue_processing := false, violation := v }
                  finalPayload := p
                  trace := ((h.name, p) :: tr).reverse }
            | .permissive => dispatchLoop filterFn ht rest p ((h.name, p) :: tr)

/-- Modelled from the spec: the engine's entry check `has_hooks_for` of the
external ContextForge `PluginManager` — whether any registered handler
subscribes to the extension point. -/
def hasHooksFor (hs : List Handler) (ht : String) : Bool :=
  hs.any (fun h => h.hook = ht)

/-- Modelled from the spec: one full engine dispatch (spec section 4.4
steps 3-4) — resolve the handlers subscribed to the extension point, sort
stably by ascending priority, and run the sequential loop. -/
def dispatch (filterFn : String → MelleaBasePayload → MelleaBasePayload → MelleaBasePayload)
    (hs : List Handler) (ht : String) (p : MelleaBasePayload) : DispatchOutcome :=
  dispatchLoop filterFn ht (sortByPriority (hs.filter (fun h => h.hook = ht))) p []

/-- The module-level singleton state of `manager.py`: `_plugins_enabled`,
`_plugin_manager` (its registered handlers), and `_session_tags`
(session id to set of plugin names, as an association list). -/
structure ManagerState where
  enabled : Bool := false
  manager : Option (List Handler) := none
  sessionTags : List (String × List String) := []

/-- The `_track_session_plugin` helper of `manager.py`:
`_session_tags.setdefault(session_id, set()).add(plugin_name)`. -/
def trackSessionPlugin (tags : List (String × List String))
    (session_id plugin_name : String) : List (String × List String) :=
  match tags with
  | [] => [(session_id, [plugin_name])]
  | (sid, names) :: rest =>
      if sid = session_id then
        (sid, if plugin_name ∈ names then names else names ++ [plugin_name]) :: rest
      else (sid, names) :: trackSessionPlugin rest session_id plugin_name

/-- The `deregister_session_plugins` function of `manager.py`: a no-op when
plugins are disabled or there is no manager; otherwise pop the session's
name set from `_session_tags` and unregister each named plugin from the
manager's registry (unregistration of an absent name is swallowed). -/
def deregisterSessionPlugins (st : ManagerState) (session_id : String) : ManagerState :=
  if ¬ st.enabled ∨ st.manager.isNone then st
  else
    let names := ((st.sessionTags.lookup session_id).getD [])
    { st with
      manager := st.manager.map (fun hs => hs.filter (fun h => h.name ∉ names))
      sessionTags := st.sessionTags.filter (fun e => e.1 ≠ session_id) }

/-- The tail of `invoke_hook` in `manager.py` (lines 183-202): given the
stamped payload and the engine's dispatch outcome, raise
`PluginViolationError` built from the violation when the final result
blocks (`continue_processing` false and a violation present); otherwise
return the result together with its modified payload, falling back to the
stamped payload (`result.modified_payload if result and
result.modified_payload else payload`). -/
def finalizeInvoke (hook_type : HookType) (stamped : MelleaBasePayload)
    (out : DispatchOutcome) :
    Except PluginViolationError (Option PluginResult × MelleaBasePayload) :=
  match out.result.continue_processing, out.result.violation with
  | false, some v =>
      .error (mkPluginViolationError hook_type.value v.reason v.code v.plugin_name)
  | _, _ =>
      .ok (some out.result, (out.result.modified_payload).getD stamped)

/-- The `invoke_hook` wrapper of `manager.py` (lines 132-202).  Guard
layers: return `(none, payload)` untouched when plugins are disabled or no
manager exists, or when no handler subscribes to the hook.  Otherwise
stamp the payload (`stampForDispatch`), run the engine dispatch, and on a
final result that blocks with a violation raise `PluginViolationError`
built from the violation; otherwise return the result together with its
modified payload (falling back to the stamped payload).  Exceptions are
modelled by `Except`. -/
def invokeHook (st : ManagerState)
    (filterFn : String → MelleaBasePayload → MelleaBasePayload → MelleaBasePayload)
    (hook_type : HookType) (payload : MelleaBasePayload)
    (session_id : Option String := none) (request_id : String := "") :
    Except PluginViolationError (Option PluginResult × MelleaBasePayload) :=
  match st.enabled, st.manager with
  | false, _ => .ok (none, payload)
  | true, none => .ok (none, payload)
  | true, some hs =>
      if ¬ hasHooksFor hs hook_type.value then .ok (none, payload)
      else
        let stamped := stampForDispatch payload hook_type.value session_id request_id
        finalizeInvoke hook_type stamped (dispatch filterFn hs hook_type.value stamped)

/-- A ContextForge `PluginConfig` as the registry adapters build it
(`registry.py`): plugin name, dotted kind, subscribed hooks, mode,
priority. -/
structure PluginConfig where
  name : String
  kind : String
  hooks : List String
  mode : CFPluginMode
  priority : Int
  deriving DecidableEq, Repr

/-- The `_FunctionHookAdapter.__init__` configuration of `registry.py`: the
adapter for a standalone `@hook` function takes the function's qualname as
name, subscribes to the single hook of the metadata, maps the mode through
`_MODE_MAP`, and uses the registration-time priority override when one was
given, else the decorator's priority. -/
def functionAdapterConfig (module qualname : String) (meta : HookMeta)
    (priority_override : Option Int) : PluginConfig :=
  { name := qualname
    kind := module ++ "." ++ qualname
    hooks := [meta.hook_type]
    mode := mapMode meta.mode
    priority := priority_override.getD meta.priority }

/-- Python `dict` insertion on an association list: replacing the value of
an existing key in place, appending a new key at the end. -/
def dictInsert {β : Type} (k : String) (v : β) :
    List (String × β) → List (String × β)
  | [] => [(k, v)]
  | e :: rest =>
      if e.1 = k then (k, v) :: rest else e :: dictInsert k v rest

/-- The hook-method discovery loop of `_ClassPluginAdapter.__init__`
(`registry.py` lines 220-231): iterate the instance's attributes in `dir`
order as `(attribute name, attached hook metadata if any)`; skip names
starting with an underscore; for each tagged method, store it in the
`hook_methods` dict keyed by its hook type (a later method with the same
hook type replaces the earlier one).  The stored value is the attribute
name, standing for the bound method. -/
def discoverStep (acc : List (String × (String × HookMeta)))
    (e : String × Option HookMeta) : List (String × (String × HookMeta)) :=
  if e.1.startsWith "_" then acc
  else
    match e.2 with
    | none => acc
    | some m => dictInsert m.hook_type (e.1, m) acc

/-- The discovery loop itself: fold `discoverStep` over the attributes
starting from the empty dict. -/
def discoverHooks (attrs : List (String × Option HookMeta)) :
    List (String × (String × HookMeta)) :=
  attrs.foldl discoverStep []

/-- The `_ClassPluginAdapter.__init__` configuration of `registry.py`: name
from the `@plugin` metadata, hooks from the discovered hook-method dict
keys, and priority from the registration-time override when given, else
the `@plugin` metadata's priority (the discovered methods' own declared
priorities are not consulted). -/
def classAdapterConfig (module qualname : String)
    (attrs : List (String × Option HookMeta)) (plugin_meta : PluginMeta)
    (priority_override : Option Int) : PluginConfig :=
  let hook_methods := discoverHooks attrs
  { name := plugin_meta.name
    kind := module ++ "." ++ qualname
    hooks := hook_methods.map (fun e => e.1)
    mode := .enforce
    priority := priority_override.getD plugin_meta.priority }

/-- An item a `PluginSet` may contain (`pluginset.py`): a non-group item
(hook function, plugin instance — abstracted to `α`) or a nested
`PluginSet` with its name, items and optional priority. -/
inductive PSItem (α : Type) where
  | leaf : α → PSItem α
  | set : String → List (PSItem α) → Option Int → PSItem α
  deriving Repr

/-- The body of `PluginSet.flatten` (`pluginset.py` lines 40-48), run with
the containing set's priority: a nested `PluginSet` is flattened
recursively with its own priority (`result.extend(item.flatten())`); any
other item is paired with the containing set's priority
(`result.append((item, self.priority))`). -/
def flattenItems {α : Type} (prio : Option Int) :
    List (PSItem α) → List (α × Option Int)
  | [] => []
  | PSItem.leaf a :: rest => (a, prio) :: flattenItems prio rest
  | PSItem.set _ its p :: rest => flattenItems p its ++ flattenItems prio rest

/-- A `PluginSet` (`pluginset.py`): a named group of items with an optional
group priority. -/
structure PluginSet (α : Type) where
  name : String
  items : List (PSItem α)
  priority : Option Int := none

/-- The `PluginSet.flatten` method: recursively flatten into
`(item, priority_override)` pairs. -/
def PluginSet.flatten {α : Type} (ps : PluginSet α) : List (α × Option Int) :=
  flattenItems ps.priority ps.items

/-- The scoped-registration path of `register()` in `registry.py` with a
session id: each resulting adapter is added to the manager's registry and
its name tracked under the session id by `_track_session_plugin`.  The
adapters are given here already normalised as `Handler` records. -/
def registerScoped (st : ManagerState) (session_id : String)
    (hs : List Handler) : ManagerState :=
  { st with
    manager := st.manager.map (fun reg => reg ++ hs)
    sessionTags := hs.foldl
      (fun t h => trackSessionPlugin t session_id h.name) st.sessionTags }

/-- The context-manager entry shared by `PluginSet.__enter__`
(`pluginset.py` lines 50-64) and `_plugin_cm_enter` (`decorators.py`
lines 17-32): if the handle's scope id is already set, raise a
`RuntimeError` before touching any state; otherwise generate a fresh scope
id (passed in, standing for `uuid.uuid4()`), register the handle's
handlers under it, and return the handle with the scope id set. -/
def scopedEnter (handle_name : String) (scope_id : Option String)
    (st : ManagerState) (fresh : String) (hs : List Handler) :
    Except String (Option String × ManagerState) :=
  match scope_id with
  | some _ =>
      .error ("Plugin " ++ handle_name ++
        " is already active as a context manager.")
  | none => .ok (some fresh, registerScoped st fresh hs)

/-- The context-manager exit shared by `PluginSet.__exit__` and
`_plugin_cm_exit`: when a scope id is set, deregister that scope's plugins
and reset the scope id to `none`; otherwise do nothing. -/
def scopedExit (scope_id : Option String) (st : ManagerState) :
    Option String × ManagerState :=
  match scope_id with
  | some sid => (none, deregisterSessionPlugins st sid)
  | none => (none, st)

/-! ## Helper lemmas -/

theorem flattenItems_append {α : Type} (P : Option Int) (l1 l2 : List (PSItem α)) :
    flattenItems P (l1 ++ l2) = flattenItems P l1 ++ flattenItems P l2 := by
  induction l1 with
  | nil => simp [flattenItems]
  | cons x xs ih => cases x <;> simp [flattenItems, ih]

theorem flattenItems_leaves {α : Type} (P : Option Int) (xs : List α) :
    flattenItems P (xs.map PSItem.leaf) = xs.map (fun a => (a, P)) := by
  induction xs with
  | nil => simp [flattenItems]
  | cons x xs ih => simp [flattenItems, ih]

/-! ## C3 — group priority override is not transitive -/

/-- C3 counterexample: a group with priority 5 containing an inner group of
priority 7 around a single item flattens to the pair carrying the inner
priority 7, not the outer priority 5, refuting the claim that the outer
group's priority overrides every transitively contained item. -/
theorem psflatten_transitive_override_cex :
    PluginSet.flatten
        (⟨"outer", [PSItem.set "inner" [PSItem.leaf (0 : Nat)] (some 7)], some 5⟩ :
          PluginSet Nat)
      = [((0 : Nat), some 7)] ∧
    ((0 : Nat), some 5) ∉
      PluginSet.flatten
        (⟨"outer", [PSItem.set "inner" [PSItem.leaf (0 : Nat)] (some 7)], some 5⟩ :
          PluginSet Nat) := by
  constructor
  · simp [PluginSet.flatten, flattenItems]
  · simp [PluginSet.flatten, flattenItems]

/-- C3 (amended): flattening a group with priority P pairs each directly
contained non-group item with P, while an inner group's items are
flattened under the inner group's own priority, unaffected by P. -/
theorem psflatten_direct_override_nested_own {α : Type} (gname m : String)
    (P Q : Option Int) (xs zs : List α) (ys : List (PSItem α)) :
    PluginSet.flatten
        (⟨gname, xs.map PSItem.leaf ++ PSItem.set m ys Q :: zs.map PSItem.leaf, P⟩ :
          PluginSet α)
      = xs.map (fun a => (a, P)) ++
        PluginSet.flatten (⟨m, ys, Q⟩ : PluginSet α) ++
        zs.map (fun a => (a, P)) := by
  show flattenItems P (xs.map PSItem.leaf ++ PSItem.set m ys Q :: zs.map PSItem.leaf)
      = xs.map (fun a => (a, P)) ++ flattenItems Q ys ++ zs.map (fun a => (a, P))
  rw [flattenItems_append, flattenItems_leaves]
  simp [flattenItems, flattenItems_leaves, List.append_assoc]

/-! ## C4 — bundle priority wins over member priorities -/

/-- C4: a `@plugin` bundle registers with the bundle's declared priority as
the effective priority of the whole adapter (hence of every discovered
hook method), independently of the discovered methods' own declared
priorities; a registration-time override replaces it for all of them. -/
theorem bundle_priority_overrides_members (module qualname : String)
    (attrs attrs2 : List (String × Option HookMeta)) (pmeta : PluginMeta) :
    (classAdapterConfig module qualname attrs pmeta none).priority = pmeta.priority ∧
    (∀ o : Int, (classAdapterConfig module qualname attrs pmeta (some o)).priority = o) ∧
    (classAdapterConfig module qualname attrs pmeta none).priority =
      (classAdapterConfig module qualname attrs2 pmeta none).priority := by
  exact ⟨rfl, fun o => rfl, rfl⟩

/-! ## C5 — fire-and-forget mode registers as enforcing -/

/-- C5: the mode map sends `fire_and_forget` to the ContextForge enforcing
mode, the same image as `enforce`; consequently the adapter configuration
of a `@hook` function declared fire-and-forget equals the configuration of
the same function declared enforcing, and a dispatch over a handler
carrying the mapped fire-and-forget mode equals the dispatch over the same
handler carrying the mapped enforcing mode. -/
theorem fire_and_forget_registers_as_enforce :
    mapMode PluginMode.fire_and_forget = CFPluginMode.enforce ∧
    mapMode PluginMode.fire_and_forget = mapMode PluginMode.enforce ∧
    (∀ (module qualname hook_type : String) (priority : Int) (ov : Option Int),
      functionAdapterConfig module qualname ⟨hook_type, .fire_and_forget, priority⟩ ov
        = functionAdapterConfig module qualname ⟨hook_type, .enforce, priority⟩ ov) ∧
    (∀ (filterFn : String → MelleaBasePayload → MelleaBasePayload → MelleaBasePayload)
      (name hook : String) (priority : Int)
      (run : MelleaBasePayload → Option PluginResult)
      (rest : List Handler) (ht : String) (p : MelleaBasePayload),
      dispatch filterFn
          (⟨name, hook, mapMode .fire_and_forget, priority, run⟩ :: rest) ht p
        = dispatch filterFn
          (⟨name, hook, mapMode .enforce, priority, run⟩ :: rest) ht p) := by
  exact ⟨rfl, rfl, fun _ _ _ _ _ => rfl, fun _ _ _ _ _ _ _ _ => rfl⟩

/-! ## C10 — method discovery skips underscores and keeps one handler per point -/

theorem mem_keys_dictInsert {β : Type} (k x : String) (v : β) :
    ∀ l : List (String × β), x ∈ (dictInsert k v l).map Prod.fst →
      x = k ∨ x ∈ l.map Prod.fst := by
  intro l
  induction l with
  | nil => intro h; rw [dictInsert] at h; simpa using h
  | cons e rest ih =>
      intro h
      by_cases hk : e.1 = k
      · rw [dictInsert, if_pos hk, List.map_cons, List.mem_cons] at h
        rcases h with h | h
        · exact Or.inl h
        · exact Or.inr (by rw [List.map_cons, List.mem_cons]; exact Or.inr h)
      · rw [dictInsert, if_neg hk, List.map_cons, List.mem_cons] at h
        rcases h with h | h
        · exact Or.inr (by rw [List.map_cons, List.mem_cons]; exact Or.inl h)
        · rcases ih h with h2 | h2
          · exact Or.inl h2
          · exact Or.inr (by rw [List.map_cons, List.mem_cons]; exact Or.inr h2)

theorem keys_nodup_dictInsert {β : Type} (k : String) (v : β) :
    ∀ l : List (String × β), (l.map Prod.fst).Nodup →
      ((dictInsert k v l).map Prod.fst).Nodup := by
  intro l
  induction l with
  | nil => intro _; rw [dictInsert]; simp
  | cons e rest ih =>
      intro h
      rw [List.map_cons, List.nodup_cons] at h
      obtain ⟨hnotin, hnd⟩ := h
      by_cases hk : e.1 = k
      · rw [dictInsert, if_pos hk, List.map_cons, List.nodup_cons]
        exact ⟨hk ▸ hnotin, hnd⟩
      · rw [dictInsert, if_neg hk, List.map_cons, List.nodup_cons]
        refine ⟨fun hx => ?_, ih hnd⟩
        rcases mem_keys_dictInsert k e.1 v rest hx with h2 | h2
        · exact hk h2
        · exact hnotin h2

theorem keys_nodup_discoverStep (acc : List (String × (String × HookMeta)))
    (e : String × Option HookMeta) (h : (acc.map Prod.fst).Nodup) :
    ((discoverStep acc e).map Prod.fst).Nodup := by
  unfold discoverStep
  by_cases hu : e.1.startsWith "_"
  · simpa [hu] using h
  · cases hm : e.2 with
    | none => simpa [hu] using h
    | some m => simpa [hu] using keys_nodup_dictInsert m.hook_type (e.1, m) acc h

theorem keys_nodup_foldl_discover (attrs : List (String × Option HookMeta)) :
    ∀ acc : List (String × (String × HookMeta)), (acc.map Prod.fst).Nodup →
      ((attrs.foldl discoverStep acc).map Prod.fst).Nodup := by
  induction attrs with
  | nil => intro acc h; simpa using h
  | cons e rest ih =>
      intro acc h
      exact ih _ (keys_nodup_discoverStep acc e h)

theorem foldl_discover_skip_underscore (attrs : List (String × Option HookMeta)) :
    ∀ acc : List (String × (String × HookMeta)),
      (attrs.filter (fun e => !(e.1.startsWith "_"))).foldl discoverStep acc
        = attrs.foldl discoverStep acc := by
  induction attrs with
  | nil => intro acc; rfl
  | cons e rest ih =>
      intro acc
      by_cases hu : e.1.startsWith "_"
      · have hstep : discoverStep acc e = acc := by simp [discoverStep, hu]
        simp [List.filter, hu, ih, hstep]
      · simp [List.filter, hu, ih]

theorem filter_key_length_le_one {β : Type} (ht : String) :
    ∀ l : List (String × β), (l.map Prod.fst).Nodup →
      (l.filter (fun e => e.1 = ht)).length ≤ 1 := by
  intro l
  induction l with
  | nil => intro _; simp
  | cons e rest ih =>
      intro h
      rw [List.map_cons, List.nodup_cons] at h
      obtain ⟨hnotin, hnd⟩ := h
      by_cases hk : e.1 = ht
      · have hnone : rest.filter (fun e => e.1 = ht) = [] := by
          refine List.filter_eq_nil_iff.mpr ?_
          intro a ha
          simp only [decide_eq_true_eq]
          intro heq
          have hmem : e.1 ∈ rest.map Prod.fst := by
            rw [hk, ← heq]
            exact List.mem_map_of_mem Prod.fst ha
          exact hnotin hmem
        simp [List.filter_cons, hk, hnone]
      · simpa [List.filter_cons, hk] using ih hnd

/-- C10: hook-method discovery on a `@plugin` instance never depends on
attributes whose names begin with an underscore (filtering them away first
changes nothing), and the discovered `hook_methods` dict holds at most one
handler per extension point — its keys are duplicate-free, so when several
tagged methods declare the same point only one survives; the adapter's
registered hook list inherits that uniqueness. -/
theorem class_discovery_skips_underscore_and_dedups
    (attrs : List (String × Option HookMeta)) (module qualname : String)
    (pmeta : PluginMeta) (ov : Option Int) :
    discoverHooks (attrs.filter (fun e => !(e.1.startsWith "_"))) = discoverHooks attrs ∧
    ((discoverHooks attrs).map Prod.fst).Nodup ∧
    (∀ ht : String, ((discoverHooks attrs).filter (fun e => e.1 = ht)).length ≤ 1) ∧
    (classAdapterConfig module qualname attrs pmeta ov).hooks.Nodup := by
  have hnd := keys_nodup_foldl_discover attrs [] (by simp)
  refine ⟨foldl_discover_skip_underscore attrs [], hnd,
    fun ht => filter_key_length_le_one ht _ hnd, ?_⟩
  simpa [classAdapterConfig, discoverHooks] using hnd

/-! ## C1 — no-op guard of invoke_hook -/

/-- C1: for every hook type and payload, when plugins are disabled, or no
manager exists, or no registered handler subscribes to the requested
extension point, `invoke_hook` returns `(none, payload)` with the payload
unchanged and raises no exception. -/
theorem invoke_hook_noop_guard (st : ManagerState)
    (filterFn : String → MelleaBasePayload → MelleaBasePayload → MelleaBasePayload)
    (ht : HookType) (p : MelleaBasePayload) (sid : Option String) (rid : String)
    (h : st.enabled = false ∨ st.manager = none ∨
      ∀ hs, st.manager = some hs → hasHooksFor hs ht.value = false) :
    invokeHook st filterFn ht p sid rid = .ok (none, p) := by
  rcases h with h | h | h
  · cases hm : st.manager <;> simp [invokeHook, h, hm]
  · cases he : st.enabled <;> simp [invokeHook, h, he]
  · cases he : st.enabled with
    | false => cases hm : st.manager <;> simp [invokeHook, he, hm]
    | true =>
        cases hm : st.manager with
        | none => simp [invokeHook, he, hm]
        | some hs => simp [invokeHook, he, hm, h hs hm]

/-- C1 witness: a disabled manager state on a concrete payload returns the
payload untouched with no result and no exception. -/
theorem invoke_hook_noop_guard_witness :
    invokeHook { enabled := false } (fun _ _ q => q) HookType.session_pre_init
        { session_id := some "sess", request_id := "r1", timestamp := 7,
          user_metadata := [("k", "v")] } none "req"
      = .ok (none,
          { session_id := some "sess", request_id := "r1", timestamp := 7,
            user_metadata := [("k", "v")] }) :=
  invoke_hook_noop_guard _ _ _ _ _ _ (Or.inl rfl)

/-! ## C6 — dispatch-time stamping of the payload -/

theorem dispatchLoop_trace_first
    (f : String → MelleaBasePayload → MelleaBasePayload → MelleaBasePayload)
    (ht : String) :
    ∀ (hs : List Handler) (p : MelleaBasePayload)
      (tr : List (String × MelleaBasePayload)),
      ∃ rest2, (dispatchLoop f ht hs p tr).trace = tr.reverse ++ rest2 ∧
        rest2.head? = hs.head?.map (fun h => (h.name, p)) := by
  intro hs
  induction hs with
  | nil =>
      intro p tr
      exact ⟨[], by simp [dispatchLoop], by simp⟩
  | cons h rest ih =>
      intro p tr
      rw [dispatchLoop]
      cases hrun : h.run p with
      | none =>
          obtain ⟨r2, htr, _⟩ := ih p ((h.name, p) :: tr)
          exact ⟨(h.name, p) :: r2, by rw [htr]; simp, by simp⟩
      | some r =>
          cases hcp : r.continue_processing with
          | true =>
              simp only [hcp, if_true]
              obtain ⟨r2, htr, _⟩ := ih _ ((h.name, p) :: tr)
              exact ⟨(h.name, p) :: r2, by rw [htr]; simp, by simp⟩
          | false =>
              simp only [hcp, Bool.false_eq_true, if_false]
              cases hmode : h.mode with
              | enforce =>
                  exact ⟨[(h.name, p)], by simp, by simp⟩
              | permissive =>
                  obtain ⟨r2, htr, _⟩ := ih p ((h.name, p) :: tr)
                  exact ⟨(h.name, p) :: r2, by rw [htr]; simp, by simp⟩

/-- C6 counterexample: with a session id argument supplied, the stamped
payload handed through the dispatch (and returned unchanged by a handler
that mutates nothing) carries the supplied session id in place of the
caller's original `session_id` value — so not every field other than
`hook` and `request_id` keeps its original value. -/
theorem hook_stamping_session_id_cex :
    invokeHook
        { enabled := true
          manager := some [⟨"h", "session_pre_init", .enforce, 50, fun _ => none⟩] }
        (fun _ _ q => q) HookType.session_pre_init
        { session_id := some "x", request_id := "r", timestamp := 3,
          user_metadata := [("k", "v")] }
        (some "y") "rid"
      = .ok (some { continue_processing := true
                    modified_payload := some
                      { session_id := some "y", request_id := "r", timestamp := 3,
                        hook := "session_pre_init", user_metadata := [("k", "v")] } },
             { session_id := some "y", request_id := "r", timestamp := 3,
               hook := "session_pre_init", user_metadata := [("k", "v")] }) ∧
    ({ session_id := some "y", request_id := "r", timestamp := 3,
       hook := "session_pre_init",
       user_metadata := [("k", "v")] } : MelleaBasePayload).session_id ≠
      ({ session_id := some "x", request_id := "r", timestamp := 3,
         user_metadata := [("k", "v")] } : MelleaBasePayload).session_id :=
  ⟨rfl, by decide⟩

/-- C6 (amended): when a dispatch proceeds past the entry guard,
`invoke_hook` hands the engine the stamped copy of the caller's payload;
that copy's `hook` field equals the dispatched extension-point name
(overwriting any caller value), its `request_id` is the given request id
exactly when the incoming one is empty and is preserved otherwise, its
`session_id` is replaced by the supplied session id when one is given and
preserved otherwise, and all remaining fields (timestamp, user metadata,
point-specific fields) keep their original values; the first handler in
priority order is invoked with exactly that stamped payload. -/
theorem hook_stamping_amended (st : ManagerState)
    (filterFn : String → MelleaBasePayload → MelleaBasePayload → MelleaBasePayload)
    (ht : HookType) (p : MelleaBasePayload) (sid : Option String) (rid : String)
    (hs : List Handler)
    (hen : st.enabled = true) (hmgr : st.manager = some hs)
    (hsub : hasHooksFor hs ht.value = true) :
    invokeHook st filterFn ht p sid rid =
      finalizeInvoke ht (stampForDispatch p ht.value sid rid)
        (dispatch filterFn hs ht.value (stampForDispatch p ht.value sid rid)) ∧
    (dispatch filterFn hs ht.value (stampForDispatch p ht.value sid rid)).trace.head?
      = ((sortByPriority (hs.filter (fun h => h.hook = ht.value))).head?).map
          (fun h => (h.name, stampForDispatch p ht.value sid rid)) ∧
    (stampForDispatch p ht.value sid rid).hook = ht.value ∧
    (stampForDispatch p ht.value sid rid).request_id
      = (if p.request_id = "" then rid else p.request_id) ∧
    (stampForDispatch p ht.value sid rid).session_id
      = (match sid with | some s => some s | none => p.session_id) ∧
    (stampForDispatch p ht.value sid rid).timestamp = p.timestamp ∧
    (stampForDispatch p ht.value sid rid).user_metadata = p.user_metadata ∧
    (stampForDispatch p ht.value sid rid).extra = p.extra := by
  refine ⟨by simp [invokeHook, hen, hmgr, hsub], ?_, rfl, rfl, rfl, rfl, rfl, rfl⟩
  obtain ⟨r2, htr, hh⟩ := dispatchLoop_trace_first filterFn ht.value
    (sortByPriority (hs.filter (fun h => h.hook = ht.value)))
    (stampForDispatch p ht.value sid rid) []
  rw [dispatch, htr]
  simpa using hh

/-- C6 amended-claim witness: a concrete dispatch in which the guard
passes, instantiating the amended stamping facts. -/
theorem hook_stamping_amended_witness :
    (stampForDispatch
        { session_id := some "x", request_id := "", timestamp := 3,
          user_metadata := [("k", "v")] }
        HookType.session_pre_init.value (some "y") "rid").hook
      = HookType.session_pre_init.value ∧
    (stampForDispatch
        { session_id := some "x", request_id := "", timestamp := 3,
          user_metadata := [("k", "v")] }
        HookType.session_pre_init.value (some "y") "rid").request_id = "rid" ∧
    (dispatch (fun _ _ q => q)
        [⟨"h", "session_pre_init", .enforce, 50, fun _ => none⟩]
        HookType.session_pre_init.value
        (stampForDispatch
          { session_id := some "x", request_id := "", timestamp := 3,
            user_metadata := [("k", "v")] }
          HookType.session_pre_init.value (some "y") "rid")).trace.head?
      = some ("h",
          stampForDispatch
            { session_id := some "x", request_id := "", timestamp := 3,
              user_metadata := [("k", "v")] }
            HookType.session_pre_init.value (some "y") "rid") := by
  have h := hook_stamping_amended
    { enabled := true
      manager := some [⟨"h", "session_pre_init", .enforce, 50, fun _ => none⟩] }
    (fun _ _ q => q) HookType.session_pre_init
    { session_id := some "x", request_id := "", timestamp := 3,
      user_metadata := [("k", "v")] }
    (some "y") "rid"
    [⟨"h", "session_pre_init", .enforce, 50, fun _ => none⟩]
    rfl rfl rfl
  exact ⟨h.2.2.1, h.2.2.2.1.trans rfl, h.2.1.trans rfl⟩

/-! ## C2 — shape of the violation error on a blocking dispatch -/

theorem dispatchLoop_block_source
    (f : String → MelleaBasePayload → MelleaBasePayload → MelleaBasePayload)
    (ht : String) :
    ∀ (hs : List Handler) (p : MelleaBasePayload)
      (tr : List (String × MelleaBasePayload)) (v : PluginViolation),
      (dispatchLoop f ht hs p tr).result.continue_processing = false →
      (dispatchLoop f ht hs p tr).result.violation = some v →
      ∃ h ∈ hs, h.mode = CFPluginMode.enforce ∧ v.plugin_name = h.name ∧
        ∃ q r v0, h.run q = some r ∧ r.continue_processing = false ∧
          r.violation = some v0 ∧ v = { v0 with plugin_name := h.name } := by
  intro hs
  induction hs with
  | nil =>
      intro p tr v hc _
      simp [dispatchLoop] at hc
  | cons h rest ih =>
      intro p tr v hc hv
      rw [dispatchLoop] at hc hv
      cases hrun : h.run p with
      | none =>
          rw [hrun] at hc hv
          obtain ⟨h2, hm2, rest2⟩ := ih _ _ _ hc hv
          exact ⟨h2, List.mem_cons_of_mem _ hm2, rest2⟩
      | some r =>
          rw [hrun] at hc hv
          cases hcp : r.continue_processing with
          | true =>
              simp only [hcp, if_true] at hc hv
              obtain ⟨h2, hm2, rest2⟩ := ih _ _ _ hc hv
              exact ⟨h2, List.mem_cons_of_mem _ hm2, rest2⟩
          | false =>
              simp only [hcp, Bool.false_eq_true, if_false] at hc hv
              cases hmode : h.mode with
              | enforce =>
                  rw [hmode] at hc hv
                  cases hviol : r.violation with
                  | none => rw [hviol] at hv; simp at hv
                  | some v0 =>
                      rw [hviol] at hv
                      simp only [Option.map_some] at hv
                      injection hv with hv
                      exact ⟨h, List.mem_cons_self _ _, hmode, by rw [← hv], p, r, v0,
                        hrun, hcp, hviol, hv.symm⟩
              | permissive =>
                  rw [hmode] at hc hv
                  obtain ⟨h2, hm2, rest2⟩ := ih _ _ _ hc hv
                  exact ⟨h2, List.mem_cons_of_mem _ hm2, rest2⟩

/-- C2: when the final result of a dispatch blocks (continue flag false
with a violation present), `invoke_hook` raises a `PluginViolationError`
whose `code`, `reason`, `hook_type` and `plugin_name` attributes equal the
violation's machine code, the violation's reason, the dispatched
extension-point name, and the violation's plugin name — which is the name
of an enforcing handler, subscribed to the point, that blocked — and whose
string form embeds the extension-point name and the reason. -/
theorem violation_error_shape (st : ManagerState)
    (filterFn : String → MelleaBasePayload → MelleaBasePayload → MelleaBasePayload)
    (ht : HookType) (p : MelleaBasePayload) (sid : Option String) (rid : String)
    (hs : List Handler) (v : PluginViolation)
    (hen : st.enabled = true) (hmgr : st.manager = some hs)
    (hsub : hasHooksFor hs ht.value = true)
    (hblock : (dispatch filterFn hs ht.value
      (stampForDispatch p ht.value sid rid)).result.continue_processing = false)
    (hviol : (dispatch filterFn hs ht.value
      (stampForDispatch p ht.value sid rid)).result.violation = some v) :
    invokeHook st filterFn ht p sid rid
      = .error (mkPluginViolationError ht.value v.reason v.code v.plugin_name) ∧
    (mkPluginViolationError ht.value v.reason v.code v.plugin_name).hook_type
      = ht.value ∧
    (mkPluginViolationError ht.value v.reason v.code v.plugin_name).reason
      = v.reason ∧
    (mkPluginViolationError ht.value v.reason v.code v.plugin_name).code = v.code ∧
    (mkPluginViolationError ht.value v.reason v.code v.plugin_name).plugin_name
      = v.plugin_name ∧
    (mkPluginViolationError ht.value v.reason v.code v.plugin_name).message
      = "Plugin blocked " ++ ht.value ++ ": " ++
        (if v.code = "" then "" else "[" ++ v.code ++ "] ") ++ v.reason ∧
    ∃ h2 ∈ hs, h2.hook = ht.value ∧ h2.mode = CFPluginMode.enforce ∧
      v.plugin_name = h2.name := by
  refine ⟨?_, rfl, rfl, rfl, rfl, rfl, ?_⟩
  · simp [invokeHook, hen, hmgr, hsub, finalizeInvoke, hblock, hviol]
  · obtain ⟨h2, hm2, hmode2, hname2, _⟩ := dispatchLoop_block_source filterFn ht.value
      (sortByPriority (hs.filter (fun h => h.hook = ht.value)))
      (stampForDispatch p ht.value sid rid) [] v hblock hviol
    have hm3 : h2 ∈ hs.filter (fun h => h.hook = ht.value) :=
      (List.perm_insertionSort _ _).mem_iff.mp hm2
    rw [List.mem_filter] at hm3
    exact ⟨h2, hm3.1, by simpa using hm3.2, hmode2, hname2⟩

/-- C2 witness: the specification scenario — an enforcing handler on
`session_pre_init` blocking with reason "Access denied" and code
"AUTH_001" makes `invoke_hook` raise an error whose code is exactly
"AUTH_001" and whose reason is exactly "Access denied". -/
theorem violation_error_shape_witness :
    invokeHook
        { enabled := true
          manager := some [⟨"enforced_blocker", "session_pre_init", .enforce, 10,
            fun _ => some (block "Access denied" "AUTH_001")⟩] }
        (fun _ _ q => q) HookType.session_pre_init {} none ""
      = .error (mkPluginViolationError "session_pre_init" "Access denied"
          "AUTH_001" "enforced_blocker") ∧
    (mkPluginViolationError "session_pre_init" "Access denied" "AUTH_001"
      "enforced_blocker").code = "AUTH_001" ∧
    (mkPluginViolationError "session_pre_init" "Access denied" "AUTH_001"
      "enforced_blocker").reason = "Access denied" ∧
    (mkPluginViolationError "session_pre_init" "Access denied" "AUTH_001"
      "enforced_blocker").message
      = "Plugin blocked session_pre_init: [AUTH_001] Access denied" := by
  have h := violation_error_shape
    { enabled := true
      manager := some [⟨"enforced_blocker", "session_pre_init", .enforce, 10,
        fun _ => some (block "Access denied" "AUTH_001")⟩] }
    (fun _ _ q => q) HookType.session_pre_init {} none ""
    [⟨"enforced_blocker", "session_pre_init", .enforce, 10,
      fun _ => some (block "Access denied" "AUTH_001")⟩]
    { reason := "Access denied", description := "Access denied",
      code := "AUTH_001", plugin_name := "enforced_blocker" }
    rfl rfl rfl rfl rfl
  exact ⟨h.1, rfl, rfl, rfl⟩

/-! ## C7 — permissive blocks do not interrupt the dispatch -/

theorem finalizeInvoke_ok (ht : HookType) (stamped : MelleaBasePayload)
    (out : DispatchOutcome) (hc : out.result.continue_processing = true) :
    finalizeInvoke ht stamped out
      = .ok (some out.result, out.result.modified_payload.getD stamped) := by
  unfold finalizeInvoke
  rw [hc]

theorem dispatchLoop_all_execute
    (f : String → MelleaBasePayload → MelleaBasePayload → MelleaBasePayload)
    (ht : String) :
    ∀ (hs : List Handler) (p : MelleaBasePayload)
      (tr : List (String × MelleaBasePayload)),
      (∀ h ∈ hs, h.mode = CFPluginMode.permissive ∨
        ∀ q r, h.run q = some r → r.continue_processing = true) →
      (dispatchLoop f ht hs p tr).result.continue_processing = true ∧
      (dispatchLoop f ht hs p tr).trace.map Prod.fst
        = tr.reverse.map Prod.fst ++ hs.map Handler.name := by
  intro hs
  induction hs with
  | nil =>
      intro p tr _
      exact ⟨by simp [dispatchLoop], by simp [dispatchLoop]⟩
  | cons h rest ih =>
      intro p tr hall
      have hh := hall h (List.mem_cons_self _ _)
      have hrest := fun h2 hm => hall h2 (List.mem_cons_of_mem _ hm)
      rw [dispatchLoop]
      cases hrun : h.run p with
      | none =>
          obtain ⟨hc, htr⟩ := ih p ((h.name, p) :: tr) hrest
          exact ⟨hc, by rw [htr]; simp⟩
      | some r =>
          cases hcp : r.continue_processing with
          | true =>
              simp only [hcp, if_true]
              obtain ⟨hc, htr⟩ := ih _ ((h.name, p) :: tr) hrest
              exact ⟨hc, by rw [htr]; simp⟩
          | false =>
              rcases hh with hperm | hnoblock
              · simp only [hcp, Bool.false_eq_true, if_false, hperm]
                obtain ⟨hc, htr⟩ := ih p ((h.name, p) :: tr) hrest
                exact ⟨hc, by rw [htr]; simp⟩
              · exact absurd (hnoblock p r hrun) (by simp [hcp])

/-- C7: in a dispatch where every subscribed handler is either
permissive-mode or never blocks (so any blocks come from permissive
handlers only), all handlers in the sorted chain execute, the aggregate
result keeps `continue_processing` true, and `invoke_hook` returns
normally without raising. -/
theorem permissive_block_does_not_raise (st : ManagerState)
    (filterFn : String → MelleaBasePayload → MelleaBasePayload → MelleaBasePayload)
    (ht : HookType) (p : MelleaBasePayload) (sid : Option String) (rid : String)
    (hs : List Handler)
    (hen : st.enabled = true) (hmgr : st.manager = some hs)
    (hsub : hasHooksFor hs ht.value = true)
    (hmodes : ∀ h ∈ hs, h.hook = ht.value →
      (h.mode = CFPluginMode.permissive ∨
        ∀ q r, h.run q = some r → r.continue_processing = true))
    (hblocked : ∃ h ∈ hs, h.hook = ht.value ∧ h.mode = CFPluginMode.permissive ∧
      ∃ q r, h.run q = some r ∧ r.continue_processing = false) :
    (dispatch filterFn hs ht.value
      (stampForDispatch p ht.value sid rid)).result.continue_processing = true ∧
    (dispatch filterFn hs ht.value
        (stampForDispatch p ht.value sid rid)).trace.map Prod.fst
      = (sortByPriority (hs.filter (fun h => h.hook = ht.value))).map Handler.name ∧
    ∃ res pay, invokeHook st filterFn ht p sid rid = .ok (some res, pay) ∧
      res.continue_processing = true := by
  have hall : ∀ h ∈ sortByPriority (hs.filter (fun x => x.hook = ht.value)),
      h.mode = CFPluginMode.permissive ∨
        ∀ q r, h.run q = some r → r.continue_processing = true := by
    intro h hm
    have hm2 := (List.perm_insertionSort _ _).mem_iff.mp hm
    rw [List.mem_filter] at hm2
    exact hmodes h hm2.1 (by simpa using hm2.2)
  obtain ⟨hc, htr⟩ := dispatchLoop_all_execute filterFn ht.value
    (sortByPriority (hs.filter (fun x => x.hook = ht.value)))
    (stampForDispatch p ht.value sid rid) [] hall
  refine ⟨hc, by rw [dispatch, htr]; simp, ?_⟩
  have hunf : invokeHook st filterFn ht p sid rid
      = finalizeInvoke ht (stampForDispatch p ht.value sid rid)
          (dispatch filterFn hs ht.value (stampForDispatch p ht.value sid rid)) := by
    simp [invokeHook, hen, hmgr, hsub]
  have hc2 : (dispatch filterFn hs ht.value
      (stampForDispatch p ht.value sid rid)).result.continue_processing = true := hc
  rw [hunf, finalizeInvoke_ok _ _ _ hc2]
  exact ⟨_, _, rfl, hc2⟩

/-- C7 witness: a permissive blocker at priority 10 followed by an
enforcing observer at priority 100 — both execute, the aggregate result
continues, and `invoke_hook` returns without raising. -/
theorem permissive_block_does_not_raise_witness :
    (dispatch (fun _ _ q => q)
        [⟨"perm_blocker", "session_pre_init", .permissive, 10,
          fun _ => some (block "nope" "P001")⟩,
         ⟨"observer", "session_pre_init", .enforce, 100, fun _ => none⟩]
        HookType.session_pre_init.value
        (stampForDispatch {} HookType.session_pre_init.value none
          "")).result.continue_processing = true ∧
    (dispatch (fun _ _ q => q)
        [⟨"perm_blocker", "session_pre_init", .permissive, 10,
          fun _ => some (block "nope" "P001")⟩,
         ⟨"observer", "session_pre_init", .enforce, 100, fun _ => none⟩]
        HookType.session_pre_init.value
        (stampForDispatch {} HookType.session_pre_init.value none "")).trace.map
        Prod.fst
      = ["perm_blocker", "observer"] ∧
    ∃ res pay,
      invokeHook
          { enabled := true
            manager := some
              [⟨"perm_blocker", "session_pre_init", .permissive, 10,
                fun _ => some (block "nope" "P001")⟩,
               ⟨"observer", "session_pre_init", .enforce, 100, fun _ => none⟩] }
          (fun _ _ q => q) HookType.session_pre_init {} none ""
        = .ok (some res, pay) ∧ res.continue_processing = true := by
  have h := permissive_block_does_not_raise
    { enabled := true
      manager := some
        [⟨"perm_blocker", "session_pre_init", .permissive, 10,
          fun _ => some (block "nope" "P001")⟩,
         ⟨"observer", "session_pre_init", .enforce, 100, fun _ => none⟩] }
    (fun _ _ q => q) HookType.session_pre_init {} none ""
    [⟨"perm_blocker", "session_pre_init", .permissive, 10,
      fun _ => some (block "nope" "P001")⟩,
     ⟨"observer", "session_pre_init", .enforce, 100, fun _ => none⟩]
    rfl rfl rfl
    (by
      intro h2 hm _
      simp only [List.mem_cons, List.not_mem_nil, or_false] at hm
      rcases hm with rfl | rfl
      · exact Or.inl rfl
      · exact Or.inr (fun q r hr => Option.noConfusion hr))
    ⟨⟨"perm_blocker", "session_pre_init", .permissive, 10,
        fun _ => some (block "nope" "P001")⟩,
      by simp, rfl, rfl, {}, block "nope" "P001", rfl, rfl⟩
  exact ⟨h.1, h.2.1.trans rfl, h.2.2⟩

/-! ## C8 — closing a scope removes exactly that scope -/

theorem lookup_filterKey_self (s : String) :
    ∀ l : List (String × List String),
      (l.filter (fun e => e.1 ≠ s)).lookup s = none := by
  intro l
  induction l with
  | nil => rfl
  | cons e rest ih =>
      obtain ⟨k, vs⟩ := e
      by_cases h : k = s
      · simpa [List.filter_cons, h] using ih
      · have hbeq : (s == k) = false := beq_false_of_ne (Ne.symm h)
        simpa [List.filter_cons, h, List.lookup_cons, hbeq] using ih

theorem lookup_filterKey_ne (s t : String) (hne : t ≠ s) :
    ∀ l : List (String × List String),
      (l.filter (fun e => e.1 ≠ s)).lookup t = l.lookup t := by
  intro l
  induction l with
  | nil => rfl
  | cons e rest ih =>
      obtain ⟨k, vs⟩ := e
      by_cases h : k = s
      · have hbeq : (t == s) = false := beq_false_of_ne hne
        simpa [List.filter_cons, h, List.lookup_cons, hbeq] using ih
      · by_cases ht : t = k
        · simp [List.filter_cons, h, List.lookup_cons, ht]
        · have hbeq : (t == k) = false := beq_false_of_ne ht
          simpa [List.filter_cons, h, List.lookup_cons, hbeq] using ih

/-- C8: with plugins configured, closing a scope `s` removes exactly the
handlers whose names are tracked under `s` (a registry handler survives
iff its name is not in `s`'s tracked set, and nothing new appears),
removes `s` from the scope map while every other scope's entry is
untouched, and — when scope name-sets are disjoint, as registration
enforces — every handler tracked under any other scope stays registered. -/
theorem deregister_scope_frame (st : ManagerState) (s : String)
    (reg : List Handler)
    (hen : st.enabled = true) (hmgr : st.manager = some reg)
    (hdisj : ∀ e ∈ st.sessionTags, e.1 ≠ s →
      ∀ n ∈ e.2, n ∉ (st.sessionTags.lookup s).getD []) :
    ∃ reg2, (deregisterSessionPlugins st s).manager = some reg2 ∧
      (∀ h ∈ reg, (h ∈ reg2 ↔ h.name ∉ (st.sessionTags.lookup s).getD [])) ∧
      (∀ h ∈ reg2, h ∈ reg) ∧
      (deregisterSessionPlugins st s).sessionTags.lookup s = none ∧
      (∀ t, t ≠ s →
        (deregisterSessionPlugins st s).sessionTags.lookup t
          = st.sessionTags.lookup t) ∧
      (∀ e ∈ st.sessionTags, e.1 ≠ s → ∀ n ∈ e.2, ∀ h ∈ reg, h.name = n →
        h ∈ reg2) ∧
      (deregisterSessionPlugins st s).enabled = st.enabled := by
  have hcond : ¬ (¬ st.enabled ∨ st.manager.isNone) := by
    simp [hen, hmgr]
  refine ⟨reg.filter (fun h => h.name ∉ (st.sessionTags.lookup s).getD []),
    ?_, ?_, ?_, ?_, ?_, ?_, ?_⟩
  · have hcond2 : ¬ (¬ st.enabled ∨ (some reg : Option (List Handler)).isNone) := by
      simp [hen]
    simp only [deregisterSessionPlugins, hmgr, if_neg hcond2]
    rfl
  · intro h hm
    constructor
    · intro h2
      have := (List.mem_filter.mp h2).2
      simpa using this
    · intro hnot
      exact List.mem_filter.mpr ⟨hm, by simpa using hnot⟩
  · intro h hm
    exact (List.mem_filter.mp hm).1
  · simp only [deregisterSessionPlugins, if_neg hcond]
    exact lookup_filterKey_self s st.sessionTags
  · intro t htne
    simp only [deregisterSessionPlugins, if_neg hcond]
    exact lookup_filterKey_ne s t htne st.sessionTags
  · intro e hme hne n hn h hm hname
    refine List.mem_filter.mpr ⟨hm, ?_⟩
    have := hdisj e hme hne n hn
    simpa [hname] using this
  · simp only [deregisterSessionPlugins, if_neg hcond]

/-- C8 witness: nested scopes A (handler "a") and B (handler "b") with a
global handler "g"; closing B removes exactly "b", keeps "a" and "g"
registered, drops B from the scope map and leaves A's entry untouched;
closing A afterwards removes only "a". -/
theorem deregister_scope_frame_witness :
    (∃ reg2,
      (deregisterSessionPlugins
          { enabled := true
            manager := some
              [⟨"g", "session_pre_init", .enforce, 50, fun _ => none⟩,
               ⟨"a", "session_pre_init", .enforce, 50, fun _ => none⟩,
               ⟨"b", "session_pre_init", .enforce, 50, fun _ => none⟩]
            sessionTags := [("A", ["a"]), ("B", ["b"])] } "B").manager = some reg2 ∧
      (∀ h ∈ [⟨"g", "session_pre_init", .enforce, 50, fun _ => none⟩,
               ⟨"a", "session_pre_init", .enforce, 50, fun _ => none⟩,
               (⟨"b", "session_pre_init", .enforce, 50, fun _ => none⟩ : Handler)],
        (h ∈ reg2 ↔ h.name ∉
          (([("A", ["a"]), ("B", ["b"])] : List (String × List String)).lookup
            "B").getD [])) ∧
      (deregisterSessionPlugins
          { enabled := true
            manager := some
              [⟨"g", "session_pre_init", .enforce, 50, fun _ => none⟩,
               ⟨"a", "session_pre_init", .enforce, 50, fun _ => none⟩,
               ⟨"b", "session_pre_init", .enforce, 50, fun _ => none⟩]
            sessionTags := [("A", ["a"]), ("B", ["b"])] } "B").sessionTags.lookup
          "B" = none ∧
      (deregisterSessionPlugins
          { enabled := true
            manager := some
              [⟨"g", "session_pre_init", .enforce, 50, fun _ => none⟩,
               ⟨"a", "session_pre_init", .enforce, 50, fun _ => none⟩,
               ⟨"b", "session_pre_init", .enforce, 50, fun _ => none⟩]
            sessionTags := [("A", ["a"]), ("B", ["b"])] } "B").sessionTags.lookup
          "A" = some ["a"]) ∧
    ((deregisterSessionPlugins
        { enabled := true
          manager := some
            [⟨"g", "session_pre_init", .enforce, 50, fun _ => none⟩,
             ⟨"a", "session_pre_init", .enforce, 50, fun _ => none⟩,
             ⟨"b", "session_pre_init", .enforce, 50, fun _ => none⟩]
          sessionTags := [("A", ["a"]), ("B", ["b"])] } "B").sessionTags
      = [("A", ["a"])]) := by
  refine ⟨?_, by rfl⟩
  obtain ⟨reg2, h1, h2, _, h4, h5, _, _⟩ := deregister_scope_frame
    { enabled := true
      manager := some
        [⟨"g", "session_pre_init", .enforce, 50, fun _ => none⟩,
         ⟨"a", "session_pre_init", .enforce, 50, fun _ => none⟩,
         ⟨"b", "session_pre_init", .enforce, 50, fun _ => none⟩]
      sessionTags := [("A", ["a"]), ("B", ["b"])] } "B"
    [⟨"g", "session_pre_init", .enforce, 50, fun _ => none⟩,
     ⟨"a", "session_pre_init", .enforce, 50, fun _ => none⟩,
     ⟨"b", "session_pre_init", .enforce, 50, fun _ => none⟩]
    rfl rfl
    (by
      intro e hme hne n hn
      simp only [List.mem_cons, List.not_mem_nil, or_false] at hme
      rcases hme with rfl | rfl
      · simp only [List.mem_cons, List.not_mem_nil, or_false] at hn
        subst hn
        decide
      · exact absurd rfl hne)
  exact ⟨reg2, h1, h2, h4, (h5 "A" (by decide)).trans rfl⟩

/-! ## C9 — context-manager reentrancy guard and reuse after exit -/

theorem lookup_track_self_sub (sid n : String) :
    ∀ tags : List (String × List String),
      ∃ ns, (trackSessionPlugin tags sid n).lookup sid = some ns ∧ n ∈ ns := by
  intro tags
  induction tags with
  | nil =>
      exact ⟨[n], by simp [trackSessionPlugin, List.lookup_cons], by simp⟩
  | cons e rest ih =>
      obtain ⟨k, vs⟩ := e
      by_cases h : k = sid
      · refine ⟨if n ∈ vs then vs else vs ++ [n], ?_, ?_⟩
        · simp [trackSessionPlugin, h, List.lookup_cons]
        · by_cases hn : n ∈ vs <;> simp [hn]
      · obtain ⟨ns, h1, h2⟩ := ih
        refine ⟨ns, ?_, h2⟩
        have hbeq : (sid == k) = false := beq_false_of_ne (Ne.symm h)
        simp [trackSessionPlugin, h, List.lookup_cons, hbeq, h1]

theorem lookup_track_mono (sid n sid2 m : String) :
    ∀ tags : List (String × List String),
      m ∈ ((tags.lookup sid2).getD []) →
      m ∈ (((trackSessionPlugin tags sid n).lookup sid2).getD []) := by
  intro tags
  induction tags with
  | nil => intro hm; simp at hm
  | cons e rest ih =>
      obtain ⟨k, vs⟩ := e
      intro hm
      by_cases h : k = sid
      · by_cases h2 : sid2 = k
        · have hbeq : (sid2 == k) = true := by simp [h2]
          rw [List.lookup_cons, hbeq] at hm
          simp only [Option.getD_some] at hm
          simp only [trackSessionPlugin]
          rw [if_pos h, List.lookup_cons, hbeq]
          by_cases hn : n ∈ vs <;> simp [hn, hm]
        · have hbeq : (sid2 == k) = false := beq_false_of_ne h2
          rw [List.lookup_cons, hbeq] at hm
          simp only [trackSessionPlugin]
          rw [if_pos h, List.lookup_cons, hbeq]
          exact hm
      · by_cases h2 : sid2 = k
        · have hbeq : (sid2 == k) = true := by simp [h2]
          rw [List.lookup_cons, hbeq] at hm
          simp only [trackSessionPlugin]
          rw [if_neg h, List.lookup_cons, hbeq]
          exact hm
        · have hbeq : (sid2 == k) = false := beq_false_of_ne h2
          rw [List.lookup_cons, hbeq] at hm
          simp only [trackSessionPlugin]
          rw [if_neg h, List.lookup_cons, hbeq]
          exact ih hm

theorem foldl_track_mono (sid m sid2 : String) :
    ∀ (hs : List Handler) (tags : List (String × List String)),
      m ∈ ((tags.lookup sid2).getD []) →
      m ∈ (((hs.foldl (fun t h2 => trackSessionPlugin t sid h2.name)
        tags).lookup sid2).getD []) := by
  intro hs
  induction hs with
  | nil => intro tags hm; exact hm
  | cons h0 rest ih =>
      intro tags hm
      rw [List.foldl_cons]
      exact ih _ (lookup_track_mono sid h0.name sid2 m tags hm)

theorem lookup_foldl_track (sid : String) :
    ∀ (hs : List Handler) (tags : List (String × List String)) (h : Handler),
      h ∈ hs →
      h.name ∈ (((hs.foldl (fun t h2 => trackSessionPlugin t sid h2.name)
        tags).lookup sid).getD []) := by
  intro hs
  induction hs with
  | nil => intro tags h hm; cases hm
  | cons h0 rest ih =>
      intro tags h hm
      rw [List.foldl_cons]
      rcases List.mem_cons.mp hm with heq | hm2
      · subst heq
        obtain ⟨ns, h1, h2⟩ := lookup_track_self_sub sid h.name tags
        refine foldl_track_mono sid h.name sid rest _ ?_
        simp [h1, h2]
      · exact ih _ h hm2

/-- C9: entering a scoped handle (PluginSet or `@plugin` instance) whose
scope id is already set raises a `RuntimeError` without producing any new
state — no registration happens and the open scope stays as it is; a
proper exit resets the scope id to `none` and deregisters the scope once
(a second exit is a no-op); entering again with the scope id cleared
succeeds, registering every handler of the handle in the registry and
tracking each handler's name under the newly generated scope id. -/
theorem scope_reentry_guard (hname s fresh : String) (st st2 : ManagerState)
    (hs : List Handler) (reg : List Handler) (hmgr : st2.manager = some reg) :
    scopedEnter hname (some s) st fresh hs
      = .error ("Plugin " ++ hname ++ " is already active as a context manager.") ∧
    scopedExit (some s) st = (none, deregisterSessionPlugins st s) ∧
    scopedExit none st = (none, st) ∧
    scopedEnter hname none st2 fresh hs
      = .ok (some fresh, registerScoped st2 fresh hs) ∧
    (∃ reg2, (registerScoped st2 fresh hs).manager = some reg2 ∧
      ∀ h ∈ hs, h ∈ reg2) ∧
    (∀ h ∈ hs,
      h.name ∈ (((registerScoped st2 fresh hs).sessionTags.lookup fresh).getD [])) := by
  refine ⟨rfl, rfl, rfl, rfl, ⟨reg ++ hs, ?_, ?_⟩, ?_⟩
  · simp [registerScoped, hmgr]
  · intro h hm
    exact List.mem_append_right _ hm
  · intro h hm
    exact lookup_foldl_track fresh hs st2.sessionTags h hm

/-- C9 witness: a concrete handle with one handler — re-entry while open
errors; after exit, entering with a fresh scope id registers the handler
and tracks its name under the fresh id. -/
theorem scope_reentry_guard_witness :
    scopedEnter "guards" (some "S0")
        { enabled := true, manager := some [], sessionTags := [] } "F1"
        [⟨"x", "session_pre_init", .enforce, 50, fun _ => none⟩]
      = .error "Plugin guards is already active as a context manager." ∧
    scopedExit (some "S0")
        { enabled := true, manager := some [], sessionTags := [] }
      = (none, deregisterSessionPlugins
          { enabled := true, manager := some [], sessionTags := [] } "S0") ∧
    scopedEnter "guards" none
        { enabled := true, manager := some [], sessionTags := [] } "F1"
        [⟨"x", "session_pre_init", .enforce, 50, fun _ => none⟩]
      = .ok (some "F1", registerScoped
          { enabled := true, manager := some [], sessionTags := [] } "F1"
          [⟨"x", "session_pre_init", .enforce, 50, fun _ => none⟩]) ∧
    (∀ h ∈ [(⟨"x", "session_pre_init", .enforce, 50, fun _ => none⟩ : Handler)],
      h.name ∈ (((registerScoped
          { enabled := true, manager := some [], sessionTags := [] } "F1"
          [⟨"x", "session_pre_init", .enforce, 50,
            fun _ => none⟩]).sessionTags.lookup "F1").getD [])) := by
  have h := scope_reentry_guard "guards" "S0" "F1"
    { enabled := true, manager := some [], sessionTags := [] }
    { enabled := true, manager := some [], sessionTags := [] }
    [⟨"x", "session_pre_init", .enforce, 50, fun _ => none⟩] [] rfl
  exact ⟨h.1.trans rfl, h.2.1, h.2.2.2.1, h.2.2.2.2.2⟩

end Mellea
